import Mathlib

/-!
Verification of the AI-Powered-FDA-Drug-Scraper repository.

This file gives a shallow embedding, over `List Char` and plain Lean
structures, of the string-normalisation functions of
`src/new_drug_approvals_scraper/utils.py` and of the incremental harvest
loop of `src/new_drug_approvals_scraper/scraper.py`
(`scrape_new_drug_approvals_data`), and proves the specification claims
about them.

Conventions used throughout:
* Python strings are embedded as `List Char` (ASCII scope); `String`
  wrappers appear only at the outer API.
* Each `re.sub`/`re.search` call of the source is embedded by a scanner
  that implements the semantics of that one concrete pattern
  (leftmost match, greedy with the backtracking behaviour that the
  specific pattern admits).  Scanners that consume a variable number of
  characters take a fuel argument instantiated with the input length so
  that they are structurally recursive and kernel-computable; the fuel
  is always sufficient because each step consumes at least one character.
* Calendar dates are abstracted as `Nat` ordinals: the scraper only ever
  compares dates for equality and order, and the `strptime` date-format
  parsing itself is not under test in any claim.
* The OpenAI classification calls are an external oracle; they are
  modelled as a pair of deterministic functions passed in as a `Chat`
  value, mirroring the `chat` object of the source.
-/

/-- Python `str.isspace` / regex `\s` for the ASCII range
(space, tab, newline, carriage return, vertical tab, form feed). -/
def isPySpace (c : Char) : Bool :=
  c = ' ' || c = '\t' || c = '\n' || c = '\r' || c = Char.ofNat 11 || c = Char.ofNat 12

/-- Python `str.strip()` on a character list. -/
def pyStripList (l : List Char) : List Char :=
  ((l.dropWhile isPySpace).reverse.dropWhile isPySpace).reverse

/-- Python `str.strip()`. -/
def pyStrip (s : String) : String :=
  String.mk (pyStripList s.toList)

/-- Regex word character `\w` in the ASCII range: `[a-zA-Z0-9_]`. -/
def isWordChar (c : Char) : Bool :=
  c.isAlphanum || c = '_'

/-- Python `str.title()` (ASCII scope): a letter that follows a
non-letter is uppercased, any other letter is lowercased. -/
def pyTitleAux : Bool → List Char → List Char
  | _, [] => []
  | prevAlpha, c :: rest =>
    (if c.isAlpha then (if prevAlpha then c.toLower else c.toUpper) else c)
      :: pyTitleAux c.isAlpha rest

/-- Python `str.title()` on a character list. -/
def pyTitle (l : List Char) : List Char := pyTitleAux false l

/-- `html.unescape` restricted to the named/numeric entities relevant to
the scraped markup (`&amp;` `&lt;` `&gt;` `&quot;` `&apos;` `&#39;`);
like the stdlib function it makes a single left-to-right pass and does
not rescan its own output. -/
def unescapeList : List Char → List Char
  | '&' :: 'a' :: 'm' :: 'p' :: ';' :: rest => '&' :: unescapeList rest
  | '&' :: 'l' :: 't' :: ';' :: rest => '<' :: unescapeList rest
  | '&' :: 'g' :: 't' :: ';' :: rest => '>' :: unescapeList rest
  | '&' :: 'q' :: 'u' :: 'o' :: 't' :: ';' :: rest => '"' :: unescapeList rest
  | '&' :: 'a' :: 'p' :: 'o' :: 's' :: ';' :: rest => '\'' :: unescapeList rest
  | '&' :: '#' :: '3' :: '9' :: ';' :: rest => '\'' :: unescapeList rest
  | c :: rest => c :: unescapeList rest
  | [] => []

/-! ### `clean_mode_administration` (utils.py lines 34-48)

`re.sub(r'\s*-\s*formerly.*', '', mode)` followed by
`re.sub(r'^for\s+', '', mode, flags=re.IGNORECASE)` and `.strip()`. -/

/-- Attempt to match `\s*-\s*formerly.*` at the current position; on
success return the remainder of the input after the match (the `.*`
consumes greedily up to the next newline or the end of the input). -/
def formerlyTail (cs : List Char) : Option (List Char) :=
  match cs.dropWhile isPySpace with
  | '-' :: r =>
    let w2 := r.dropWhile isPySpace
    if "formerly".toList.isPrefixOf w2 then
      some ((w2.drop 8).dropWhile (fun c => c ≠ '\n'))
    else none
  | _ => none

/-- Scanner for `re.sub(r'\s*-\s*formerly.*', '', mode)`: every
non-overlapping leftmost match is replaced by the empty string.  A match
consumes at least nine characters, so fuel equal to the input length is
always sufficient. -/
def subFormerlyAux : Nat → List Char → List Char
  | 0, l => l
  | _ + 1, [] => []
  | fuel + 1, c :: rest =>
    match formerlyTail (c :: rest) with
    | some tail => subFormerlyAux fuel tail
    | none => c :: subFormerlyAux fuel rest

/-- `re.sub(r'\s*-\s*formerly.*', '', mode)`. -/
def subFormerly (l : List Char) : List Char := subFormerlyAux l.length l

/-- `re.sub(r'^for\s+', '', mode, flags=re.IGNORECASE)`: anchored at the
start of the string, case-insensitive `for` followed by at least one
whitespace character, greedy. -/
def dropLeadingFor (l : List Char) : List Char :=
  match l with
  | f :: o :: r :: rest =>
    if f.toLower = 'f' ∧ o.toLower = 'o' ∧ r.toLower = 'r' then
      match rest with
      | c :: cs => if isPySpace c then (c :: cs).dropWhile isPySpace else l
      | [] => l
    else l
  | _ => l

/-- `clean_mode_administration` from
`src/new_drug_approvals_scraper/utils.py` (lines 34-48). -/
def clean_mode_administration (mode : String) : String :=
  String.mk (pyStripList (dropLeadingFor (subFormerly mode.toList)))

/-! ### `extract_generic_and_admin` (utils.py lines 51-77)

`re.search(r'\(((?:[^\(\)]|\([^\)]*\))*)\)\s*(.*)', unescape(drug_tag))`,
then `.strip()` of both groups, empty group 1 mapped to `None`,
`re.sub(r'<\/?\w+>', '', group2).strip()` and `clean_mode_administration`. -/

/-- Attempt to match the inner alternative `\([^\)]*\)` at the current
position; on success return the matched characters (with both
parentheses) and the remainder. -/
def innerItem (cs : List Char) : Option (List Char × List Char) :=
  match cs with
  | '(' :: rest =>
    let ns := rest.takeWhile (fun c => c ≠ ')')
    match rest.drop ns.length with
    | ')' :: tail => some ('(' :: ns ++ [')'], tail)
    | _ => none
  | _ => none

/-- Greedy matching of the group-1 body `(?:[^\(\)]|\([^\)]*\))*`:
returns the consumed characters and the remainder.  For this pattern the
greedy parse is the unique one that can be followed by `\)`: every
backtracking point re-exposes a character that is not `)`, so a
backtracked parse can never satisfy the following `\)`.  Fuel decreases
once per repetition item and every item consumes at least one character,
so fuel equal to the input length is always sufficient. -/
def greedyAux : Nat → List Char → List Char × List Char
  | 0, l => ([], l)
  | _ + 1, [] => ([], [])
  | fuel + 1, c :: rest =>
    if c = '(' then
      match innerItem (c :: rest) with
      | some (item, tail) =>
        let pr := greedyAux fuel tail
        (item ++ pr.1, pr.2)
      | none => ([], c :: rest)
    else if c = ')' then ([], c :: rest)
    else
      let pr := greedyAux fuel rest
      (c :: pr.1, pr.2)

/-- `re.search` for `\(((?:[^\(\)]|\([^\)]*\))*)\)` : try every start
position from the left; a position can match only if it holds `(` and
the greedy group body is followed by `)`.  Returns group 1 and the
remainder after the closing parenthesis. -/
def searchParen : List Char → Option (List Char × List Char)
  | [] => none
  | c :: rest =>
    if c = '(' then
      let pr := greedyAux rest.length rest
      match pr.2 with
      | ')' :: tail => some (pr.1, tail)
      | _ => searchParen rest
    else searchParen rest

/-- The `\s*(.*)` part of the search pattern applied after the closing
parenthesis: skip whitespace greedily, then `.` (which does not match a
newline) takes the rest of the line. -/
def afterGroup (tail : List Char) : List Char :=
  (tail.dropWhile isPySpace).takeWhile (fun c => c ≠ '\n')

/-- Attempt to match `<\/?\w+>` at the position after a `<`; on success
return the remainder after the `>`. -/
def tagTail (cs : List Char) : Option (List Char) :=
  let cs2 := match cs with
    | '/' :: r => r
    | r => r
  let ws := cs2.takeWhile isWordChar
  if ws.isEmpty then none
  else
    match cs2.drop ws.length with
    | '>' :: tail => some tail
    | _ => none

/-- `re.sub(r'<\/?\w+>', '', s)`: every leftmost non-overlapping match
removed.  A match consumes at least three characters. -/
def stripTagsAux : Nat → List Char → List Char
  | 0, l => l
  | _ + 1, [] => []
  | fuel + 1, c :: rest =>
    if c = '<' then
      match tagTail rest with
      | some tail => stripTagsAux fuel tail
      | none => c :: stripTagsAux fuel rest
    else c :: stripTagsAux fuel rest

/-- `re.sub(r'<\/?\w+>', '', s)`. -/
def stripTags (l : List Char) : List Char := stripTagsAux l.length l

/-- `extract_generic_and_admin` from
`src/new_drug_approvals_scraper/utils.py` (lines 51-77). -/
def extract_generic_and_admin (drugTag : String) : Option String × Option String :=
  let s := unescapeList drugTag.toList
  match searchParen s with
  | none => (none, none)
  | some (g1, tail) =>
    let gname := pyStripList g1
    let modeRaw := pyStripList (afterGroup tail)
    let mode1 := pyStripList (stripTags modeRaw)
    ((if gname = [] then none else some (String.mk gname)),
      some (clean_mode_administration (String.mk mode1)))

/-! ### `clean_company_name` (utils.py lines 80-119) -/

/-- Attempt to match `\s*(?:/|&|\+)\s*` at the current position; on
success return the remainder after the match. -/
def connTail (cs : List Char) : Option (List Char) :=
  match cs.dropWhile isPySpace with
  | c :: r => if c = '/' ∨ c = '&' ∨ c = '+' then some (r.dropWhile isPySpace) else none
  | [] => none

/-- `re.sub(r'\s*(?:/|&|\+)\s*', ' and ', s)`: every leftmost
non-overlapping match replaced by `" and "`. -/
def subConnAux : Nat → List Char → List Char
  | 0, l => l
  | _ + 1, [] => []
  | fuel + 1, c :: rest =>
    match connTail (c :: rest) with
    | some tail => ' ' :: 'a' :: 'n' :: 'd' :: ' ' :: subConnAux fuel tail
    | none => c :: subConnAux fuel rest

/-- `re.sub(r'\s*(?:/|&|\+)\s*', ' and ', s)`. -/
def subConnectors (l : List Char) : List Char := subConnAux l.length l

/-- Removal of every leftmost non-overlapping occurrence of a literal
pattern (the suffix patterns without `\b`, such as `\.` or `& co`).
`w` is always nonempty, so a match consumes at least one character. -/
def removeLitAux (w : List Char) : Nat → List Char → List Char
  | 0, l => l
  | _ + 1, [] => []
  | fuel + 1, c :: rest =>
    if w.isPrefixOf (c :: rest) then removeLitAux w fuel ((c :: rest).drop w.length)
    else c :: removeLitAux w fuel rest

/-- `re.sub` with a literal pattern and empty replacement. -/
def removeLit (w l : List Char) : List Char := removeLitAux w l.length l

/-- The `\b` test around a whole-word suffix pattern: the source
patterns all begin and end with word characters, so the boundary holds
exactly when the neighbouring character (in the original string, as
`re.sub` scans the original) is absent or not a word character. -/
def wordBoundaryOk (prev : Option Char) (after : List Char) : Bool :=
  (match prev with
   | none => true
   | some p => !(isWordChar p)) &&
  (match after with
   | [] => true
   | a :: _ => !(isWordChar a))

/-- Removal of every leftmost non-overlapping occurrence of `\bw\b`,
tracking the previous character of the original string for the left
boundary test. -/
def removeWordAux (w : List Char) : Nat → Option Char → List Char → List Char
  | 0, _, l => l
  | _ + 1, _, [] => []
  | fuel + 1, prev, c :: rest =>
    if w.isPrefixOf (c :: rest) && wordBoundaryOk prev ((c :: rest).drop w.length) then
      removeWordAux w fuel (some (w.getLastD c)) ((c :: rest).drop w.length)
    else c :: removeWordAux w fuel (some c) rest

/-- `re.sub(r'\bw\b', '', s)` for a word `w` beginning and ending in
word characters. -/
def removeWord (w l : List Char) : List Char := removeWordAux w l.length none l

/-- One suffix pattern of the `suffixes_to_remove` list: either a plain
literal or a `\b`-delimited word. -/
inductive SufPat where
  | lit (w : List Char)
  | word (w : List Char)

/-- `re.sub(suffix, "", company_name).strip()` for one pattern. -/
def applySuf (l : List Char) (p : SufPat) : List Char :=
  match p with
  | .lit w => pyStripList (removeLit w l)
  | .word w => pyStripList (removeWord w l)

/-- The `suffixes_to_remove` list of
`src/new_drug_approvals_scraper/utils.py` (lines 99-105), in source
order. -/
def suffixPats : List SufPat :=
  [.lit ".".toList, .lit ",".toList, .lit ";".toList,
   .word "inc".toList, .word "ltd".toList, .word "global".toList, .word "limited".toList,
   .word "llc".toList, .word "corp".toList, .word "a/s".toList, .word "corporation".toList,
   .word "s.a".toList, .word "gmbh".toList, .word "ag".toList, .word "plc".toList,
   .word "and co".toList, .word "and company".toList, .word "l.p".toList,
   .lit "& co".toList, .word "sa".toList, .word "usa".toList, .word "lp".toList,
   .word "us".toList, .word "incorporated".toList, .word "pharma".toList,
   .word "laboratories".toList, .word "industries".toList, .word "company".toList]

/-- `clean_company_name` from
`src/new_drug_approvals_scraper/utils.py` (lines 80-119): lowercase and
strip, connectors `/` `&` `+` (with surrounding whitespace) replaced by
`" and "`, `[.,]` removed, the ordered suffix list applied in sequence
with a strip after each removal, the exact-match `standard_names` table
(`glaxosmithkline` to `gsk`), and finally `str.title()`. -/
def clean_company_name (companyName : String) : String :=
  let s1 := pyStripList (companyName.toList.map Char.toLower)
  let s2 := subConnectors s1
  let s3 := s2.filter (fun c => !(c = '.' || c = ','))
  let s4 := suffixPats.foldl applySuf s3
  let s5 := if s4 = "glaxosmithkline".toList then "gsk".toList else s4
  String.mk (pyTitle s5)

/-! ### The harvest loop (`scrape_new_drug_approvals_data`, scraper.py lines 36-200)

The transport is a function `fetch : Nat → Fetched`, the markup query
layer is pre-applied (a `Fetched` carries the result of
`soup.select_one('div.ddc-media-list')` followed by `find_all` as an
`Option (List Block)`, `none` modelling a page without the media-list
container), and one `Block` carries the queried sub-elements of one
`div.ddc-media` record block. -/

/-- Python `str.replace` for a single-character pattern: every
occurrence of the character replaced by the given (possibly empty)
replacement. -/
def replaceChar (a : Char) (repl : List Char) (l : List Char) : List Char :=
  l.flatMap (fun c => if c = a then repl else [c])

/-- The classification oracle (`initialize_model` / `make_classification`):
two deterministic labelling functions, one per call site, taking exactly
the fields the source passes. -/
structure Chat where
  drugType : String → Option String → String → Option String → String
  diseaseType : String → Option String → String

/-- One record block of an archive page, with the markup queries the
scraper performs already applied:
`anchorText` is the text of `drug_tag.find('a')` when present,
`titleText` the text of the `h3` title, `titleHtml` its raw markup
(`str(drug_tag)`), `subtitleSibling` the text of the paragraph following
`p.drug-subtitle` when present, and the three label fields are the
stripped sibling text of the `b` tags `"Date of Approval:"`,
`"Company:"`, `"Treatment for:"` when those tags exist (the date already
parsed to an ordinal). -/
structure Block where
  anchorText : Option String
  titleText : String
  titleHtml : String
  subtitleSibling : Option String
  dateLabel : Option Nat
  companyLabel : Option String
  treatmentLabel : Option String
deriving DecidableEq

/-- The result of fetching one year's archive page: the (never consulted)
HTTP status code, and the parse result. -/
structure Fetched where
  status : Nat
  mediaList : Option (List Block)
deriving DecidableEq

/-- One row of the persisted dataset, with the columns the scraper
writes. -/
structure Record where
  drug_name : String
  drug_generic_name : Option String
  mode_administration : Option String
  description : String
  approval_date : Nat
  company : Option String
  treatment : Option String
  drug_type : String
  disease_type : String
deriving DecidableEq

/-- `drug_tag.find('a').text if drug_tag.find('a') else
drug_tag.text.split('(')[0]`. -/
def blockDrugName (b : Block) : String :=
  match b.anchorText with
  | some t => t
  | none => String.mk (b.titleText.toList.takeWhile (fun c => c ≠ '('))

/-- The record built from one block when neither the stop condition nor
the missing-date error fires: fields assembled exactly as in scraper.py
lines 108-181 (description semicolons and tabs removed, company passed
through `clean_company_name`, treatment semicolons turned into commas,
both classification calls performed). -/
def recOf (chat : Chat) (b : Block) : Record :=
  let name := blockDrugName b
  let gm := extract_generic_and_admin b.titleHtml
  let descr := String.mk (replaceChar '\t' [' '] (replaceChar ';' []
    ((b.subtitleSibling.map (fun t => pyStripList t.toList)).getD [])))
  let comp := b.companyLabel.map (fun v => clean_company_name (pyStrip v))
  let treat := b.treatmentLabel.map (fun v => String.mk (replaceChar ';' [','] (pyStripList v.toList)))
  { drug_name := name
    drug_generic_name := gm.1
    mode_administration := gm.2
    description := descr
    approval_date := b.dateLabel.getD 0
    company := comp
    treatment := treat
    drug_type := chat.drugType name gm.2 descr treat
    disease_type := chat.diseaseType name treat }

/-- Outcome of processing one block: the early stop (drug name and
approval date both equal the most recent known record), the uncaught
`KeyError` raised by `drug_df['Date of Approval']` when the
`"Date of Approval:"` tag is missing, or a new record. -/
inductive BlockResult where
  | stop
  | keyErr (drug : String)
  | newRecord (r : Record)

/-- Processing of one `div.ddc-media` block (scraper.py lines 106-190)
up to the point where the record is appended. -/
def processBlock (chat : Chat) (mrDate : Option Nat) (mrDrug : Option String)
    (b : Block) : BlockResult :=
  match b.dateLabel with
  | none => .keyErr (blockDrugName b)
  | some d =>
    if mrDrug = some (blockDrugName b) ∧ mrDate = some d then .stop
    else .newRecord (recOf chat b)

/-- The errors that can escape the scraper: `IndexError` from
`df_sorted.iloc[0]` on an empty CSV, `AttributeError` from
`select_one(...).find_all` when the media-list container is missing, and
`KeyError` from the date-column conversion of a block without the date
tag. -/
inductive RunError where
  | indexError
  | attributeError (year : Nat)
  | keyError (drug : String)
deriving DecidableEq

/-- The mutable state of one run: the CSV file contents (`csv`, the rows
on disk), the DataFrame being accumulated in `return_df` mode (`df`),
the `file_exists` flag, the `has_to_stop` flag, and the pending
uncaught exception. -/
structure RunState where
  csv : List Record
  df : List Record
  fileExists : Bool
  hasToStop : Bool
  error? : Option RunError
deriving DecidableEq

/-- The `for drug in tqdm(reversed(all_drugs))` loop over one year's
blocks (already reversed by the caller).  A stop or an exception breaks
out without touching the remaining blocks; otherwise the new record is
appended to the CSV on disk (`return_df = False`) or concatenated to the
returned DataFrame (`return_df = True`). -/
def procBlocksAux (chat : Chat) (mrDate : Option Nat) (mrDrug : Option String)
    (returnDf : Bool) : List Block → RunState → RunState
  | [], s => s
  | b :: bs, s =>
    match processBlock chat mrDate mrDrug b with
    | .stop => { s with hasToStop := true }
    | .keyErr n => { s with error? := some (.keyError n) }
    | .newRecord r =>
      let s2 := if returnDf then { s with df := s.df ++ [r] }
                else { s with csv := s.csv ++ [r], fileExists := true }
      procBlocksAux chat mrDate mrDrug returnDf bs s2

/-- The `while current_year >= end_year` loop: per year the archive page
is fetched (the HTTP status is never consulted); a missing media-list
container raises `AttributeError`; a pending exception or the
`has_to_stop` flag ends the loop. -/
def procYears (fetch : Nat → Fetched) (chat : Chat) (mrDate : Option Nat)
    (mrDrug : Option String) (returnDf : Bool) : List Nat → RunState → RunState
  | [], s => s
  | y :: ys, s =>
    if s.error?.isSome then s
    else if s.hasToStop then s
    else
      match (fetch y).mediaList with
      | none => { s with error? := some (.attributeError y) }
      | some blocks =>
        procYears fetch chat mrDate mrDrug returnDf ys
          (procBlocksAux chat mrDate mrDrug returnDf blocks.reverse s)

/-- The year sequence of the loop, descending from the current calendar
year to the floor year. -/
def yearsDesc (cur endY : Nat) : List Nat :=
  if cur < endY then [] else (List.range (cur + 1 - endY)).map (fun i => cur - i)

/-- `df.sort_values(by='Date of Approval', ascending=False).iloc[0]`:
pandas implements the descending single-column sort by reversing the
ascending argsort, so on tied maximal dates `iloc[0]` is the last row of
the file attaining the maximum.  This fold computes that row directly:
on a date tie it keeps the later row. -/
def lastMaxRec : Record → List Record → Record
  | best, [] => best
  | best, r :: rs => lastMaxRec (if best.approval_date ≤ r.approval_date then r else best) rs

/-- `scrape_new_drug_approvals_data` (scraper.py lines 36-200), with the
transport, the oracle, the current calendar year and the CSV file on
disk (`none` when the file does not exist) made explicit.  In
`return_df` mode the file is never read nor written and the dedup
boundary is taken from the `most_recent_date` / `most_recent_drug`
arguments; otherwise an existing file is read, and the row the
descending date sort puts first — on tied maximal dates the last such
row of the file — supplies the boundary (an empty frame makes `iloc[0]`
raise `IndexError`). -/
def scrape_new_drug_approvals_data (fetch : Nat → Fetched) (chat : Chat)
    (currentYear : Nat) (returnDf : Bool) (mostRecentDate : Option Nat)
    (mostRecentDrug : Option String) (csvOnDisk : Option (List Record)) : RunState :=
  if returnDf then
    procYears fetch chat mostRecentDate mostRecentDrug true (yearsDesc currentYear 2002)
      { csv := csvOnDisk.getD [], df := [], fileExists := csvOnDisk.isSome,
        hasToStop := false, error? := none }
  else
    match csvOnDisk with
    | none =>
      procYears fetch chat mostRecentDate mostRecentDrug false (yearsDesc currentYear 2002)
        { csv := [], df := [], fileExists := false, hasToStop := false, error? := none }
    | some [] =>
      { csv := [], df := [], fileExists := true, hasToStop := false,
        error? := some .indexError }
    | some (r :: rs) =>
      let mr := lastMaxRec r rs
      procYears fetch chat (some mr.approval_date) (some mr.drug_name) false
        (yearsDesc currentYear 2002)
        { csv := r :: rs, df := [], fileExists := true, hasToStop := false, error? := none }

/-- The per-run iteration stream: the blocks of the fetched pages in the
order the nested loops visit them (years descending, each page
reversed). -/
def iterStream (fetch : Nat → Fetched) (ys : List Nat) : List Block :=
  ys.flatMap (fun y => ((fetch y).mediaList.getD []).reverse)

/-- The stop test of scraper.py line 145 as a Boolean predicate on a
block (false when the block has no date tag: the comparison is never
reached there). -/
def stopMatch (mrDate : Option Nat) (mrDrug : Option String) (b : Block) : Bool :=
  match b.dateLabel with
  | some d => decide (mrDrug = some (blockDrugName b) ∧ mrDate = some d)
  | none => false

/-- The prefix of a block list strictly before the first stop match
(the whole list when nothing matches). -/
def takeUntilStop (p : Block → Bool) : List Block → List Block
  | [] => []
  | b :: bs => if p b then [] else b :: takeUntilStop p bs

/-- The date of a block, for blocks that carry their date tag. -/
def dateOf (b : Block) : Nat := b.dateLabel.getD 0

/-! ### List helper lemmas -/

theorem takeWhile_append_cons {α : Type} {p : α → Bool} {l1 l2 : List α} {a : α}
    (h1 : ∀ c ∈ l1, p c = true) (h2 : p a = false) :
    (l1 ++ a :: l2).takeWhile p = l1 := by
  induction l1 with
  | nil => simp [List.takeWhile_cons, h2]
  | cons c cs ih =>
    have hc : p c = true := h1 c (by simp)
    simp only [List.cons_append, List.takeWhile_cons, hc, if_true]
    rw [ih (fun x hx => h1 x (by simp [hx]))]

theorem dropWhile_idem {α : Type} (p : α → Bool) (l : List α) :
    (l.dropWhile p).dropWhile p = l.dropWhile p := by
  induction l with
  | nil => rfl
  | cons c cs ih =>
    by_cases hc : p c = true
    · simp [List.dropWhile_cons, hc, ih]
    · simp [List.dropWhile_cons, hc]

theorem pyStripList_dropWhile (l : List Char) :
    pyStripList (l.dropWhile isPySpace) = pyStripList l := by
  unfold pyStripList
  rw [dropWhile_idem]

theorem takeWhile_all {α : Type} {p : α → Bool} {l : List α} (h : ∀ c ∈ l, p c = true) :
    l.takeWhile p = l :=
  List.takeWhile_eq_self_iff.mpr h

/-! ### Lemmas about `extract_generic_and_admin` -/

/-- The shape of a balanced group-1 body as in claims C4/C5: a sequence
of non-parenthesis characters and one level of nested groups with
parenthesis-free content. -/
inductive ItemsOK : List Char → Prop
  | nil : ItemsOK []
  | chr {c : Char} {rest : List Char} :
      c ≠ '(' → c ≠ ')' → ItemsOK rest → ItemsOK (c :: rest)
  | grp {mid rest : List Char} :
      (∀ c ∈ mid, c ≠ '(' ∧ c ≠ ')') → ItemsOK rest →
      ItemsOK ('(' :: (mid ++ ')' :: rest))

theorem greedyAux_items {inner : List Char} (h : ItemsOK inner) :
    ∀ (fuel : Nat) (post : List Char), inner.length ≤ fuel →
      greedyAux fuel (inner ++ ')' :: post) = (inner, ')' :: post) := by
  induction h with
  | nil =>
    intro fuel post _
    cases fuel with
    | zero => rfl
    | succ f => simp [greedyAux]
  | @chr c rest hc1 hc2 _ ih =>
    intro fuel post hlen
    cases fuel with
    | zero => simp at hlen
    | succ f =>
      have hlen2 : rest.length ≤ f := by simp at hlen; omega
      simp only [List.cons_append, greedyAux, if_neg hc1, if_neg hc2, List.append_eq]
      rw [ih f post hlen2]
  | @grp mid rest hmid _ ih =>
    intro fuel post hlen
    cases fuel with
    | zero => simp at hlen
    | succ f =>
      have hlen2 : rest.length ≤ f := by
        simp [List.length_append] at hlen; omega
      have htw : ((mid ++ ')' :: (rest ++ ')' :: post)).takeWhile
          (fun c => decide (c ≠ ')')) ) = mid :=
        takeWhile_append_cons (fun c hc => by simp [(hmid c hc).2]) (by simp)
      have hl : ('(' :: (mid ++ ')' :: rest)) ++ ')' :: post
          = '(' :: (mid ++ ')' :: (rest ++ ')' :: post)) := by
        simp [List.append_assoc]
      rw [hl]
      simp only [greedyAux, if_pos rfl, if_true, innerItem, List.append_eq]
      rw [htw, List.drop_left]
      simp only [ih f post hlen2]
      simp [List.append_assoc]

theorem searchParen_decomp {pre inner post : List Char}
    (hpre : ∀ c ∈ pre, c ≠ '(') (hinner : ItemsOK inner) :
    searchParen (pre ++ '(' :: (inner ++ ')' :: post)) = some (inner, post) := by
  induction pre with
  | nil =>
    simp only [List.nil_append, searchParen, if_pos rfl, if_true]
    rw [greedyAux_items hinner _ post (by simp [List.length_append])]
    rfl
  | cons c cs ih =>
    have hc : c ≠ '(' := hpre c (by simp)
    simp only [List.cons_append, searchParen, if_neg hc]
    exact ih (fun x hx => hpre x (by simp [hx]))

theorem searchParen_none {l : List Char} (h : ∀ c ∈ l, c ≠ '(') :
    searchParen l = none := by
  induction l with
  | nil => rfl
  | cons c cs ih =>
    have hc : c ≠ '(' := h c (by simp)
    simp only [searchParen, if_neg hc]
    exact ih (fun x hx => h x (by simp [hx]))

/-- Characterisation of `extract_generic_and_admin` on any input whose
unescaped form decomposes around a balanced parenthetical group whose
opening parenthesis is the first one of the string. -/
theorem extract_decomp (t : String) {pre inner post : List Char}
    (hdec : unescapeList t.toList = pre ++ '(' :: (inner ++ ')' :: post))
    (hpre : ∀ c ∈ pre, c ≠ '(') (hinner : ItemsOK inner) :
    extract_generic_and_admin t =
      ((if pyStripList inner = [] then none else some (String.mk (pyStripList inner))),
        some (clean_mode_administration
          (String.mk (pyStripList (stripTags (pyStripList (afterGroup post))))))) := by
  unfold extract_generic_and_admin
  rw [hdec]
  dsimp only
  rw [searchParen_decomp hpre hinner]

theorem afterGroup_no_newline {post : List Char} (h : '\n' ∉ post) :
    pyStripList (afterGroup post) = pyStripList post := by
  unfold afterGroup
  rw [takeWhile_all (fun c hc => by
    have : c ∈ post := ((List.dropWhile_sublist _).mem hc)
    simp
    intro hceq
    exact h (hceq ▸ this))]
  exact pyStripList_dropWhile post

/-! ### Lemmas about `clean_mode_administration` (claim C7) -/

/-- Modelled from the spec: "drop any ` - formerly ...` trailing clause
(case-sensitive dash match)" — the input truncated immediately before
the first position where such a clause (optional whitespace, a dash,
optional whitespace, the literal `formerly`, rest of the text) begins;
unchanged when no clause occurs. -/
def specDropFormerlyAux : Nat → List Char → List Char
  | 0, l => l
  | _ + 1, [] => []
  | fuel + 1, c :: rest =>
    match formerlyTail (c :: rest) with
    | some _ => []
    | none => c :: specDropFormerlyAux fuel rest

/-- Truncation of the input at the first ` - formerly ...` clause. -/
def specDropFormerly (l : List Char) : List Char := specDropFormerlyAux l.length l

theorem formerlyTail_no_newline {l tail : List Char} (hn : '\n' ∉ l)
    (h : formerlyTail l = some tail) : tail = [] := by
  unfold formerlyTail at h
  split at h
  next r heq =>
    dsimp only at h
    split at h
    · have htail := Option.some.inj h
      subst htail
      apply List.dropWhile_eq_nil_iff.mpr
      intro x hx
      have hsub : ((r.dropWhile isPySpace).drop 8).Sublist l := by
        apply List.Sublist.trans (List.drop_sublist _ _)
        apply List.Sublist.trans (List.dropWhile_sublist _)
        apply List.Sublist.trans (List.sublist_cons_self '-' r)
        rw [← heq]
        exact List.dropWhile_sublist _
      have hxl : x ∈ l := hsub.mem hx
      simp only [decide_eq_true_eq]
      intro hceq
      exact hn (hceq ▸ hxl)
    · simp at h
  next => simp at h

theorem subFormerlyAux_no_newline {fuel : Nat} :
    ∀ l : List Char, '\n' ∉ l → l.length ≤ fuel →
      subFormerlyAux fuel l = specDropFormerlyAux fuel l := by
  induction fuel with
  | zero => intro l _ _; rfl
  | succ f ih =>
    intro l hn hlen
    cases l with
    | nil => rfl
    | cons c rest =>
      cases hft : formerlyTail (c :: rest) with
      | some tail =>
        have ht : tail = [] := formerlyTail_no_newline hn hft
        subst ht
        simp only [subFormerlyAux, specDropFormerlyAux, hft]
        cases f <;> rfl
      | none =>
        simp only [subFormerlyAux, specDropFormerlyAux, hft]
        rw [ih rest (fun hm => hn (by simp [hm])) (by simp at hlen; omega)]

/-- On newline-free input the removal of every `\s*-\s*formerly.*` match
is the same as truncating at the first clause: the `.*` of the first
match already consumes everything up to the end of the input. -/
theorem subFormerly_no_newline {l : List Char} (hn : '\n' ∉ l) :
    subFormerly l = specDropFormerly l :=
  subFormerlyAux_no_newline l hn (le_refl _)

/-! ### Lemmas about the harvest loop -/

theorem isEmpty_append {α : Type} (A B : List α) :
    (A ++ B).isEmpty = (A.isEmpty && B.isEmpty) := by
  cases A <;> simp

theorem stopMatch_none_drug (mrDate : Option Nat) (b : Block) :
    stopMatch mrDate none b = false := by
  unfold stopMatch
  cases b.dateLabel <;> simp

theorem takeUntilStop_append_pos {p : Block → Bool} :
    ∀ {A : List Block} (B : List Block), A.any p = true →
      takeUntilStop p (A ++ B) = takeUntilStop p A := by
  intro A
  induction A with
  | nil => intro B h; simp at h
  | cons b bs ih =>
    intro B h
    by_cases hb : p b = true
    · simp [takeUntilStop, hb]
    · have hbf : p b = false := by simpa using hb
      have h2 : bs.any p = true := by simpa [hbf] using h
      simp [takeUntilStop, hbf]
      exact ih B h2

theorem takeUntilStop_append_neg {p : Block → Bool} :
    ∀ {A : List Block} (B : List Block), A.any p = false →
      takeUntilStop p (A ++ B) = A ++ takeUntilStop p B := by
  intro A
  induction A with
  | nil => intro B _; rfl
  | cons b bs ih =>
    intro B h
    simp only [List.any_cons, Bool.or_eq_false_iff] at h
    simp [takeUntilStop, h.1]
    exact ih B h.2

theorem takeUntilStop_all {p : Block → Bool} :
    ∀ {A : List Block}, A.any p = false → takeUntilStop p A = A := by
  intro A h
  have := takeUntilStop_append_neg (A := A) [] h
  simpa [takeUntilStop] using this

theorem takeUntilStop_subset {p : Block → Bool} :
    ∀ {A : List Block} {b : Block}, b ∈ takeUntilStop p A → b ∈ A := by
  intro A
  induction A with
  | nil => intro b h; simp [takeUntilStop] at h
  | cons a as ih =>
    intro b h
    by_cases ha : p a = true
    · simp [takeUntilStop, ha] at h
    · have haf : p a = false := by simpa using ha
      simp only [takeUntilStop, haf, Bool.false_eq_true, if_false, List.mem_cons] at h
      rcases h with h | h
      · exact h ▸ List.mem_cons_self a as
      · exact List.mem_cons_of_mem a (ih h)

theorem procYears_halted {fetch : Nat → Fetched} {chat : Chat} {mrDate : Option Nat}
    {mrDrug : Option String} {returnDf : Bool} {ys : List Nat} {s : RunState}
    (h : s.hasToStop = true ∨ s.error?.isSome = true) :
    procYears fetch chat mrDate mrDrug returnDf ys s = s := by
  cases ys with
  | nil => rfl
  | cons y ys =>
    rcases h with h | h
    · by_cases he : s.error?.isSome = true
      · simp [procYears, he]
      · simp [procYears, he, h]
    · simp [procYears, h]

theorem iterStream_cons (fetch : Nat → Fetched) (y : Nat) (ys : List Nat) :
    iterStream fetch (y :: ys)
      = ((fetch y).mediaList.getD []).reverse ++ iterStream fetch ys := by
  simp [iterStream, List.flatMap_cons]

theorem procBlocksAux_csv {chat : Chat} {mrDate : Option Nat} {mrDrug : Option String} :
    ∀ (L : List Block) (s : RunState), s.hasToStop = false → s.error? = none →
      (∀ b ∈ L, b.dateLabel.isSome) →
      procBlocksAux chat mrDate mrDrug false L s =
        { s with
          csv := s.csv ++ (takeUntilStop (stopMatch mrDate mrDrug) L).map (recOf chat),
          fileExists := s.fileExists
            || !((takeUntilStop (stopMatch mrDate mrDrug) L).isEmpty),
          hasToStop := L.any (stopMatch mrDate mrDrug) } := by
  intro L
  induction L with
  | nil =>
    intro s hstop herr _
    obtain ⟨c0, df0, fe0, hs0, er0⟩ := s
    dsimp only at hstop
    subst hstop
    simp [procBlocksAux, takeUntilStop]
  | cons b bs ih =>
    intro s hstop herr hdates
    obtain ⟨d, hd⟩ := Option.isSome_iff_exists.mp (hdates b (by simp))
    by_cases hm : mrDrug = some (blockDrugName b) ∧ mrDate = some d
    · have hsm : stopMatch mrDate mrDrug b = true := by
        unfold stopMatch
        rw [hd]
        exact decide_eq_true hm
      obtain ⟨c0, df0, fe0, hs0, er0⟩ := s
      dsimp only at hstop
      subst hstop
      simp only [procBlocksAux, processBlock, hd]
      rw [if_pos hm]
      simp [takeUntilStop, hsm]
    · have hsm : stopMatch mrDate mrDrug b = false := by
        unfold stopMatch
        rw [hd]
        exact decide_eq_false hm
      simp only [procBlocksAux, processBlock, hd]
      rw [if_neg hm]
      simp only [Bool.false_eq_true, if_false]
      rw [ih { s with csv := s.csv ++ [recOf chat b], fileExists := true }
        hstop herr (fun x hx => hdates x (by simp [hx]))]
      simp [takeUntilStop, hsm, List.append_assoc]

theorem procYears_csv {fetch : Nat → Fetched} {chat : Chat} {mrDate : Option Nat}
    {mrDrug : Option String} :
    ∀ (ys : List Nat) (s : RunState), s.hasToStop = false → s.error? = none →
      (∀ y ∈ ys, ((fetch y).mediaList).isSome) →
      (∀ b ∈ iterStream fetch ys, b.dateLabel.isSome) →
      procYears fetch chat mrDate mrDrug false ys s =
        { s with
          csv := s.csv
            ++ (takeUntilStop (stopMatch mrDate mrDrug) (iterStream fetch ys)).map (recOf chat),
          fileExists := s.fileExists
            || !((takeUntilStop (stopMatch mrDate mrDrug) (iterStream fetch ys)).isEmpty),
          hasToStop := (iterStream fetch ys).any (stopMatch mrDate mrDrug) } := by
  intro ys
  induction ys with
  | nil =>
    intro s hstop herr _ _
    obtain ⟨c0, df0, fe0, hs0, er0⟩ := s
    dsimp only at hstop
    subst hstop
    simp [procYears, iterStream, takeUntilStop]
  | cons y ys ih =>
    intro s hstop herr hmedia hdates
    obtain ⟨blocks, hb⟩ := Option.isSome_iff_exists.mp (hmedia y (by simp))
    have hstream : iterStream fetch (y :: ys) = blocks.reverse ++ iterStream fetch ys := by
      rw [iterStream_cons, hb]
      rfl
    have hrevdates : ∀ b ∈ blocks.reverse, b.dateLabel.isSome := by
      intro x hx
      exact hdates x (by rw [hstream]; exact List.mem_append_left _ hx)
    have hysdates : ∀ b ∈ iterStream fetch ys, b.dateLabel.isSome := by
      intro x hx
      exact hdates x (by rw [hstream]; exact List.mem_append_right _ hx)
    have herrnone : (s.error?).isSome = false := by simp [herr]
    simp only [procYears, herrnone, Bool.false_eq_true, if_false, hstop, hb]
    rw [procBlocksAux_csv blocks.reverse s hstop herr hrevdates]
    by_cases hany : blocks.reverse.any (stopMatch mrDate mrDrug) = true
    · rw [procYears_halted (Or.inl (by simp [hany]))]
      rw [hstream, takeUntilStop_append_pos _ hany]
      simp [List.any_append, hany]
    · have hany2 : blocks.reverse.any (stopMatch mrDate mrDrug) = false := by
        simpa using hany
      rw [ih { s with
          csv := s.csv
            ++ (takeUntilStop (stopMatch mrDate mrDrug) blocks.reverse).map (recOf chat),
          fileExists := s.fileExists
            || !((takeUntilStop (stopMatch mrDate mrDrug) blocks.reverse).isEmpty),
          hasToStop := blocks.reverse.any (stopMatch mrDate mrDrug) }
        (by simpa using hany2) (by exact herr)
        (fun x hx => hmedia x (by simp [hx])) hysdates]
      rw [hstream, takeUntilStop_append_neg _ hany2, takeUntilStop_all hany2]
      simp [List.any_append, hany2, List.map_append, List.append_assoc,
        isEmpty_append, Bool.not_and, Bool.or_assoc]

theorem lastMaxRec_of_lt {r : Record} :
    ∀ {rs : List Record}, (∀ x ∈ rs, x.approval_date < r.approval_date) →
      lastMaxRec r rs = r := by
  intro rs
  induction rs with
  | nil => intro _; rfl
  | cons x xs ih =>
    intro h
    have hx : ¬ r.approval_date ≤ x.approval_date :=
      not_le.mpr (h x (by simp))
    simp only [lastMaxRec, if_neg hx]
    exact ih (fun z hz => h z (by simp [hz]))

theorem lastMaxRec_mem {r : Record} :
    ∀ {rs : List Record}, lastMaxRec r rs ∈ r :: rs := by
  intro rs
  induction rs generalizing r with
  | nil => simp [lastMaxRec]
  | cons x xs ih =>
    simp only [lastMaxRec]
    by_cases hx : r.approval_date ≤ x.approval_date
    · rw [if_pos hx]
      have := ih (r := x)
      simp only [List.mem_cons] at this ⊢
      tauto
    · rw [if_neg hx]
      have := ih (r := r)
      simp only [List.mem_cons] at this ⊢
      tauto

theorem lastMaxRec_append {s0 : Record} :
    ∀ (pre : List Record) (b : Record) (rest : List Record),
      b.approval_date < s0.approval_date →
      (∀ x ∈ pre, x.approval_date < s0.approval_date) →
      (∀ x ∈ rest, x.approval_date < s0.approval_date) →
      lastMaxRec b (pre ++ s0 :: rest) = s0 := by
  intro pre
  induction pre with
  | nil =>
    intro b rest hb hpre hrest
    simp only [List.nil_append, lastMaxRec, if_pos (le_of_lt hb)]
    exact lastMaxRec_of_lt hrest
  | cons x pre ih =>
    intro b rest hb hpre hrest
    simp only [List.cons_append, lastMaxRec]
    by_cases hx : b.approval_date ≤ x.approval_date
    · rw [if_pos hx]
      exact ih x rest (hpre x (by simp)) (fun z hz => hpre z (by simp [hz])) hrest
    · rw [if_neg hx]
      exact ih b rest hb (fun z hz => hpre z (by simp [hz])) hrest

theorem procBlocksAux_pair_inv {chat : Chat} {mrDate : Option Nat} {mrDrug : Option String}
    {returnDf : Bool} (P : Record → Prop)
    (hP : ∀ (b : Block) (d : Nat), b.dateLabel = some d →
      ¬(mrDrug = some (blockDrugName b) ∧ mrDate = some d) → P (recOf chat b)) :
    ∀ (L : List Block) (s : RunState), (∀ r ∈ s.csv, P r) →
      ∀ r ∈ (procBlocksAux chat mrDate mrDrug returnDf L s).csv, P r := by
  intro L
  induction L with
  | nil => intro s hs; exact hs
  | cons b bs ih =>
    intro s hs r hr
    cases hd : b.dateLabel with
    | none =>
      simp only [procBlocksAux, processBlock, hd] at hr
      exact hs r hr
    | some d =>
      by_cases hm : mrDrug = some (blockDrugName b) ∧ mrDate = some d
      · simp only [procBlocksAux, processBlock, hd, if_pos hm] at hr
        exact hs r hr
      · simp only [procBlocksAux, processBlock, hd, if_neg hm] at hr
        cases returnDf with
        | true =>
          refine ih { s with df := s.df ++ [recOf chat b] } (fun z hz => hs z hz) r ?_
          simpa using hr
        | false =>
          refine ih { s with csv := s.csv ++ [recOf chat b], fileExists := true }
            (fun z hz => ?_) r (by simpa using hr)
          simp only [List.mem_append, List.mem_singleton] at hz
          rcases hz with hz | hz
          · exact hs z hz
          · exact hz ▸ hP b d hd hm

theorem procYears_pair_inv {fetch : Nat → Fetched} {chat : Chat} {mrDate : Option Nat}
    {mrDrug : Option String} {returnDf : Bool} (P : Record → Prop)
    (hP : ∀ (b : Block) (d : Nat), b.dateLabel = some d →
      ¬(mrDrug = some (blockDrugName b) ∧ mrDate = some d) → P (recOf chat b)) :
    ∀ (ys : List Nat) (s : RunState), (∀ r ∈ s.csv, P r) →
      ∀ r ∈ (procYears fetch chat mrDate mrDrug returnDf ys s).csv, P r := by
  intro ys
  induction ys with
  | nil => intro s hs; exact hs
  | cons y ys ih =>
    intro s hs r hr
    by_cases he : (s.error?).isSome = true
    · simp only [procYears, he, if_true] at hr
      exact hs r hr
    · have he2 : (s.error?).isSome = false := by simpa using he
      by_cases hstop : s.hasToStop = true
      · simp only [procYears, he2, Bool.false_eq_true, if_false, hstop, if_true] at hr
        exact hs r hr
      · have hstop2 : s.hasToStop = false := by simpa using hstop
        cases hm : (fetch y).mediaList with
        | none =>
          simp only [procYears, he2, Bool.false_eq_true, if_false, hstop2, hm] at hr
          exact hs r hr
        | some blocks =>
          simp only [procYears, he2, Bool.false_eq_true, if_false, hstop2, hm] at hr
          exact ih _ (procBlocksAux_pair_inv P hP blocks.reverse s hs) r hr

theorem procBlocksAux_keyError {chat : Chat} {mrDate : Option Nat} {mrDrug : Option String} :
    ∀ (L1 : List Block) (bad : Block) (L2 : List Block) (s : RunState),
      (∀ b ∈ L1, b.dateLabel.isSome) →
      (∀ b ∈ L1, stopMatch mrDate mrDrug b = false) →
      bad.dateLabel = none →
      procBlocksAux chat mrDate mrDrug false (L1 ++ bad :: L2) s =
        { s with csv := s.csv ++ L1.map (recOf chat),
                 fileExists := s.fileExists || !L1.isEmpty,
                 error? := some (.keyError (blockDrugName bad)) } := by
  intro L1
  induction L1 with
  | nil =>
    intro bad L2 s _ _ hbad
    obtain ⟨c0, df0, fe0, hs0, er0⟩ := s
    simp [procBlocksAux, processBlock, hbad]
  | cons b bs ih =>
    intro bad L2 s hdates hns hbad
    obtain ⟨d, hd⟩ := Option.isSome_iff_exists.mp (hdates b (by simp))
    have hm : ¬(mrDrug = some (blockDrugName b) ∧ mrDate = some d) := by
      have := hns b (by simp)
      unfold stopMatch at this
      rw [hd] at this
      exact of_decide_eq_false this
    simp only [List.cons_append, procBlocksAux, processBlock, hd]
    rw [if_neg hm]
    simp only [Bool.false_eq_true, if_false, List.append_eq]
    rw [ih bad L2 { s with csv := s.csv ++ [recOf chat b], fileExists := true }
      (fun x hx => hdates x (by simp [hx])) (fun x hx => hns x (by simp [hx])) hbad]
    simp [List.append_assoc]

theorem procYears_media_eq {fetch fetch2 : Nat → Fetched} {chat : Chat}
    {mrDate : Option Nat} {mrDrug : Option String} {returnDf : Bool}
    (h : ∀ y, (fetch y).mediaList = (fetch2 y).mediaList) :
    ∀ (ys : List Nat) (s : RunState),
      procYears fetch chat mrDate mrDrug returnDf ys s
        = procYears fetch2 chat mrDate mrDrug returnDf ys s := by
  intro ys
  induction ys with
  | nil => intro s; rfl
  | cons y ys ih =>
    intro s
    simp only [procYears, h y]
    split
    · rfl
    · split
      · rfl
      · cases hm : (fetch2 y).mediaList with
        | none => rfl
        | some blocks => exact ih _

theorem procBlocksAux_df_phantom {chat : Chat} {mrDate : Option Nat} {mrDrug : Option String} :
    ∀ (L : List Block) (s : RunState) (c : List Record) (fe : Bool),
      procBlocksAux chat mrDate mrDrug true L { s with csv := c, fileExists := fe }
        = { procBlocksAux chat mrDate mrDrug true L s with csv := c, fileExists := fe } := by
  intro L
  induction L with
  | nil => intro s c fe; rfl
  | cons b bs ih =>
    intro s c fe
    cases hpb : processBlock chat mrDate mrDrug b with
    | stop => simp [procBlocksAux, hpb]
    | keyErr n => simp [procBlocksAux, hpb]
    | newRecord r =>
      simp only [procBlocksAux, hpb, if_pos rfl]
      exact ih { s with df := s.df ++ [r] } c fe

theorem procYears_df_phantom {fetch : Nat → Fetched} {chat : Chat} {mrDate : Option Nat}
    {mrDrug : Option String} :
    ∀ (ys : List Nat) (s : RunState) (c : List Record) (fe : Bool),
      procYears fetch chat mrDate mrDrug true ys { s with csv := c, fileExists := fe }
        = { procYears fetch chat mrDate mrDrug true ys s with csv := c, fileExists := fe } := by
  intro ys
  induction ys with
  | nil => intro s c fe; rfl
  | cons y ys ih =>
    intro s c fe
    obtain ⟨c0, d0, fe0, hs0, er0⟩ := s
    cases er0 with
    | some e => simp [procYears]
    | none =>
      cases hs0 with
      | true => simp [procYears]
      | false =>
        cases hm : (fetch y).mediaList with
        | none => simp [procYears, hm]
        | some blocks =>
          simp only [procYears, hm, Option.isSome_none, Bool.false_eq_true, if_false]
          rw [procBlocksAux_df_phantom blocks.reverse
            ⟨c0, d0, fe0, false, none⟩ c fe]
          exact ih _ c fe

theorem yearsDesc_head {cur : Nat} (h : 2002 ≤ cur) :
    ∃ ys, yearsDesc cur 2002 = cur :: ys := by
  unfold yearsDesc
  rw [if_neg (not_lt.mpr h)]
  have h2 : cur + 1 - 2002 = (cur - 2002) + 1 := by omega
  rw [h2, List.range_succ_eq_map]
  refine ⟨List.map (fun i => cur - (i + 1)) (List.range (cur - 2002)), ?_⟩
  simp [List.map_cons, List.map_map, Function.comp]

theorem recOf_date (chat : Chat) (b : Block) :
    (recOf chat b).approval_date = dateOf b := rfl

theorem recOf_name (chat : Chat) (b : Block) :
    (recOf chat b).drug_name = blockDrugName b := rfl

theorem stopMatch_self {b : Block} {d : Nat} (hd : b.dateLabel = some d) :
    stopMatch (some (dateOf b)) (some (blockDrugName b)) b = true := by
  unfold stopMatch
  rw [hd]
  exact decide_eq_true ⟨rfl, by simp [dateOf, hd]⟩

theorem scrape_csv_none_file (fetch : Nat → Fetched) (chat : Chat) (cur : Nat)
    (mrD : Option Nat) (mrDr : Option String) :
    scrape_new_drug_approvals_data fetch chat cur false mrD mrDr none =
      procYears fetch chat mrD mrDr false (yearsDesc cur 2002)
        { csv := [], df := [], fileExists := false, hasToStop := false, error? := none } := rfl

theorem scrape_csv_some_file (fetch : Nat → Fetched) (chat : Chat) (cur : Nat)
    (mrD : Option Nat) (mrDr : Option String) (r : Record) (rs : List Record) :
    scrape_new_drug_approvals_data fetch chat cur false mrD mrDr (some (r :: rs)) =
      procYears fetch chat (some (lastMaxRec r rs).approval_date)
        (some (lastMaxRec r rs).drug_name) false (yearsDesc cur 2002)
        { csv := r :: rs, df := [], fileExists := true, hasToStop := false,
          error? := none } := rfl

theorem procYears_stop_at_head {fetch : Nat → Fetched} {chat : Chat} {mrDate : Option Nat}
    {mrDrug : Option String} {ys : List Nat} {s0 : Block} {S' : List Block}
    (hS : iterStream fetch ys = s0 :: S')
    (hmedia : ∀ y ∈ ys, ((fetch y).mediaList).isSome)
    (hdates : ∀ b ∈ iterStream fetch ys, b.dateLabel.isSome)
    (hmatch : stopMatch mrDate mrDrug s0 = true)
    (s : RunState) (hstop : s.hasToStop = false) (herr : s.error? = none) :
    (procYears fetch chat mrDate mrDrug false ys s).csv = s.csv
    ∧ (procYears fetch chat mrDate mrDrug false ys s).error? = none := by
  rw [procYears_csv ys s hstop herr hmedia hdates, hS]
  simp [takeUntilStop, hmatch, herr]

/-- C1 (amended): idempotence of the incremental harvest holds under
the conditions the code actually needs: every fetched year page has its
media-list container and every block its date label, the newest archive
record — the head of the iteration stream (years descending, each page
iterated in reverse) — is strictly newer than every other stream record,
and every record of the pre-existing dataset is strictly older than that
newest record (in particular when the harvest starts from no dataset).
A second run over the unchanged archive then appends nothing: its CSV
equals the CSV the first run produced.  Strictness matters because on
tied maximal dates pandas' descending sort makes the boundary the last
max-date row of the file, which is not the first block the second run
visits, so a date tie at the head of the stream breaks idempotence (see
the counterexample). -/
theorem C1_harvest_idempotent_amended (fetch : Nat → Fetched) (chat : Chat) (cur : Nat)
    (file0 : Option (List Record))
    (hmedia : ∀ y ∈ yearsDesc cur 2002, ((fetch y).mediaList).isSome)
    (hdates : ∀ b ∈ iterStream fetch (yearsDesc cur 2002), b.dateLabel.isSome)
    (hstrict : ∀ s0 ∈ (iterStream fetch (yearsDesc cur 2002)).head?,
      ∀ b ∈ (iterStream fetch (yearsDesc cur 2002)).tail, dateOf b < dateOf s0)
    (hfile : file0 ≠ some [])
    (hold : ∀ D, file0 = some D → ∀ r ∈ D,
      ∀ s0 ∈ (iterStream fetch (yearsDesc cur 2002)).head?, r.approval_date < dateOf s0) :
    (scrape_new_drug_approvals_data fetch chat cur false none none
        (some (scrape_new_drug_approvals_data fetch chat cur false none none file0).csv)).csv
      = (scrape_new_drug_approvals_data fetch chat cur false none none file0).csv
    ∧ (scrape_new_drug_approvals_data fetch chat cur false none none file0).error?
      = none := by
  cases file0 with
  | none =>
    have hanyn : (iterStream fetch (yearsDesc cur 2002)).any (stopMatch none none) = false :=
      List.any_eq_false.mpr (fun b _ => by simp [stopMatch_none_drug])
    have hR1 : scrape_new_drug_approvals_data fetch chat cur false none none none
        = { csv := (iterStream fetch (yearsDesc cur 2002)).map (recOf chat), df := [],
            fileExists := false || !((iterStream fetch (yearsDesc cur 2002)).isEmpty),
            hasToStop := false, error? := none } := by
      rw [scrape_csv_none_file, procYears_csv _ _ rfl rfl hmedia hdates,
        takeUntilStop_all hanyn]
      simp [hanyn]
    rw [hR1]
    refine ⟨?_, rfl⟩
    cases hS : iterStream fetch (yearsDesc cur 2002) with
    | nil => simp [scrape_new_drug_approvals_data]
    | cons s0 S2 =>
      have htl : ∀ b ∈ S2, dateOf b < dateOf s0 := by
        intro b hb
        exact hstrict s0 (by rw [hS]; simp [Option.mem_def]) b (by rw [hS]; simpa using hb)
      simp only [List.map_cons]
      rw [scrape_csv_some_file]
      have hhead : ∀ x ∈ S2.map (recOf chat),
          x.approval_date < (recOf chat s0).approval_date := by
        intro x hx
        obtain ⟨b, hb, rfl⟩ := List.mem_map.mp hx
        rw [recOf_date, recOf_date]
        exact htl b hb
      rw [lastMaxRec_of_lt hhead]
      obtain ⟨d0, hd0⟩ := Option.isSome_iff_exists.mp (hdates s0 (by rw [hS]; simp))
      have hmatch : stopMatch (some (recOf chat s0).approval_date)
          (some (recOf chat s0).drug_name) s0 = true := by
        rw [recOf_date, recOf_name]
        exact stopMatch_self hd0
      exact (procYears_stop_at_head hS hmedia hdates hmatch _ rfl rfl).1
  | some D =>
    cases D with
    | nil => exact absurd rfl hfile
    | cons r rs =>
      have hR1 := @procYears_csv fetch chat
        (some (lastMaxRec r rs).approval_date)
        (some (lastMaxRec r rs).drug_name)
        (yearsDesc cur 2002)
        { csv := r :: rs, df := [], fileExists := true, hasToStop := false, error? := none }
        rfl rfl hmedia hdates
      rw [scrape_csv_some_file, hR1]
      cases hS : iterStream fetch (yearsDesc cur 2002) with
      | nil =>
        simp only [takeUntilStop, List.map_nil, List.append_nil]
        refine ⟨?_, by trivial⟩
        rw [scrape_csv_some_file, procYears_csv _ _ rfl rfl hmedia hdates, hS]
        simp [takeUntilStop]
      | cons s0 S2 =>
        have htl : ∀ b ∈ S2, dateOf b < dateOf s0 := by
          intro b hb
          exact hstrict s0 (by rw [hS]; simp [Option.mem_def]) b (by rw [hS]; simpa using hb)
        have hlt : ∀ x ∈ r :: rs, x.approval_date < dateOf s0 := by
          intro x hx
          exact hold (r :: rs) rfl x hx s0 (by rw [hS]; simp [Option.mem_def])
        obtain ⟨d0, hd0⟩ := Option.isSome_iff_exists.mp (hdates s0 (by rw [hS]; simp))
        have hp1s0 : stopMatch (some (lastMaxRec r rs).approval_date)
            (some (lastMaxRec r rs).drug_name) s0 = false := by
          unfold stopMatch
          rw [hd0]
          apply decide_eq_false
          rintro ⟨-, hdate⟩
          have h1 : (lastMaxRec r rs).approval_date < dateOf s0 :=
            hlt (lastMaxRec r rs) lastMaxRec_mem
          rw [Option.some_inj] at hdate
          have h2 : dateOf s0 = d0 := by simp [dateOf, hd0]
          omega
        simp only [takeUntilStop, hp1s0, Bool.false_eq_true, if_false, List.map_cons]
        refine ⟨?_, by trivial⟩
        have hcons : (r :: rs) ++ (recOf chat s0)
              :: ((takeUntilStop (stopMatch (some (lastMaxRec r rs).approval_date)
                  (some (lastMaxRec r rs).drug_name)) S2).map (recOf chat))
            = r :: (rs ++ (recOf chat s0)
              :: ((takeUntilStop (stopMatch (some (lastMaxRec r rs).approval_date)
                  (some (lastMaxRec r rs).drug_name)) S2).map (recOf chat))) := rfl
        rw [hcons, scrape_csv_some_file]
        have hfm : lastMaxRec r (rs ++ (recOf chat s0)
              :: ((takeUntilStop (stopMatch (some (lastMaxRec r rs).approval_date)
                  (some (lastMaxRec r rs).drug_name)) S2).map (recOf chat)))
            = recOf chat s0 := by
          apply lastMaxRec_append
          · rw [recOf_date]
            exact hlt r (by simp)
          · intro x hx
            exact hlt x (by simp [hx])
          · intro x hx
            obtain ⟨b, hb, rfl⟩ := List.mem_map.mp hx
            rw [recOf_date, recOf_date]
            exact htl b (takeUntilStop_subset hb)
        rw [hfm]
        have hmatch : stopMatch (some (recOf chat s0).approval_date)
            (some (recOf chat s0).drug_name) s0 = true := by
          rw [recOf_date, recOf_name]
          exact stopMatch_self hd0
        exact (procYears_stop_at_head hS hmedia hdates hmatch _ rfl rfl).1

/-! ### Concrete fixtures for witnesses and counterexamples -/

/-- A concrete classification oracle labelling everything `Other`. -/
def chatOther : Chat := ⟨fun _ _ _ _ => "Other", fun _ _ => "Other"⟩

/-- Block for drug `X`, approval date 9. -/
def blockX : Block :=
  { anchorText := some "X", titleText := "X", titleHtml := "X", subtitleSibling := none,
    dateLabel := some 9, companyLabel := none, treatmentLabel := none }

/-- Block for drug `Y`, approval date 9 — a date tie with `blockX`. -/
def blockY : Block :=
  { blockX with anchorText := some "Y", titleText := "Y", titleHtml := "Y" }

/-- A one-year archive: the 2002 page lists `blockY` then `blockX`, so
the reversed iteration of the loop visits `blockX` first. -/
def fetchXY : Nat → Fetched :=
  fun y => if y = 2002 then ⟨200, some [blockY, blockX]⟩ else ⟨200, some []⟩

/-- The record `blockX` produces. -/
def recordX : Record := recOf chatOther blockX

/-- The record `blockY` produces. -/
def recordY : Record := recOf chatOther blockY

/-- Block for drug `W`, approval date 5 — strictly older than `blockX`. -/
def blockW : Block :=
  { blockX with
    anchorText := some "W"
    titleText := "W"
    titleHtml := "W"
    dateLabel := some 5 }

/-- A one-year archive with strictly descending iteration order: the
2002 page lists `blockW` (date 5) then `blockX` (date 9), so the
reversed iteration visits `blockX` first. -/
def fetchDesc : Nat → Fetched :=
  fun y => if y = 2002 then ⟨200, some [blockW, blockX]⟩ else ⟨200, some []⟩

/-- C1 counterexample: over the archive of `fetchXY` (drugs `X` and `Y`
both approved at date 9, `X` visited first), a first run from no dataset
persists `[recordX, recordY]`.  The archive is unchanged, yet a second
run over this produced dataset is not idempotent: the descending date
sort breaks the tie in favour of the last row, so the boundary is
`recordY`, the first visited block `X` does not match it, and `recordX`
is appended a second time. -/
theorem C1_counterexample :
    (scrape_new_drug_approvals_data fetchXY chatOther 2002 false none none
        (some (scrape_new_drug_approvals_data fetchXY chatOther 2002 false none none
          none).csv)).csv
      ≠ (scrape_new_drug_approvals_data fetchXY chatOther 2002 false none none
          none).csv := by
  decide

/-- C1 witness: the amended idempotence theorem applied to the
strictly-descending archive of `fetchDesc`, starting from no dataset. -/
theorem C1_witness :
    (∀ s0 ∈ (iterStream fetchDesc (yearsDesc 2002 2002)).head?,
      ∀ b ∈ (iterStream fetchDesc (yearsDesc 2002 2002)).tail, dateOf b < dateOf s0)
    ∧ ((scrape_new_drug_approvals_data fetchDesc chatOther 2002 false none none
        (some (scrape_new_drug_approvals_data fetchDesc chatOther 2002
          false none none none).csv)).csv
      = (scrape_new_drug_approvals_data fetchDesc chatOther 2002 false none none none).csv
      ∧ (scrape_new_drug_approvals_data fetchDesc chatOther 2002
          false none none none).error? = none) :=
  ⟨by decide,
    C1_harvest_idempotent_amended fetchDesc chatOther 2002 none
      (by decide) (by decide) (by decide) (by decide)
      (fun D hD => absurd hD (by simp))⟩

/-- C2 (amended): over an existing dataset, the stop policy guarantees
only that no appended record carries the boundary pair — the drug name
and approval date of the row the descending date sort puts first, which
on tied maximal dates is the last such row of the file (`lastMaxRec`).
Every row of the resulting CSV is either a row of the pre-existing
dataset or differs from that boundary pair; in particular the boundary
record is never appended again.  Global `(drug_name, approval_date)`
uniqueness is not ensured by the policy (see the counterexample). -/
theorem C2_boundary_not_reappended (fetch : Nat → Fetched) (chat : Chat) (cur : Nat)
    (mrD : Option Nat) (mrDr : Option String) (r : Record) (rs : List Record) :
    ∀ q ∈ (scrape_new_drug_approvals_data fetch chat cur false mrD mrDr (some (r :: rs))).csv,
      q ∈ r :: rs
      ∨ ¬(q.drug_name = (lastMaxRec r rs).drug_name
          ∧ q.approval_date = (lastMaxRec r rs).approval_date) := by
  intro q hq
  rw [scrape_csv_some_file] at hq
  exact procYears_pair_inv
    (fun z => z ∈ r :: rs
      ∨ ¬(z.drug_name = (lastMaxRec r rs).drug_name
          ∧ z.approval_date = (lastMaxRec r rs).approval_date))
    (by
      intro b d hd hm
      refine Or.inr ?_
      rintro ⟨hn, hdt⟩
      apply hm
      refine ⟨?_, ?_⟩
      · rw [← hn, recOf_name]
      · rw [← hdt, recOf_date]
        simp [dateOf, hd])
    (yearsDesc cur 2002) _ (fun z hz => Or.inl hz) q hq

/-- C2 witness: over the dataset `[recordY]` and the archive of
`fetchXY`, the appended record `recordX` indeed differs from the
boundary pair `(Y, 9)`. -/
theorem C2_witness :
    recordX ∈ (scrape_new_drug_approvals_data fetchXY chatOther 2002 false none none
        (some [recordY])).csv
    ∧ (recordX ∈ [recordY]
      ∨ ¬(recordX.drug_name = (lastMaxRec recordY []).drug_name
          ∧ recordX.approval_date = (lastMaxRec recordY []).approval_date)) :=
  ⟨by decide,
    C2_boundary_not_reappended fetchXY chatOther 2002 none none recordY [] recordX (by decide)⟩

/-- C2 counterexample: running over the duplicate-free existing dataset
`[recordX, recordY]` (exactly what a fresh run over `fetchXY` persists)
and the unchanged archive, the tie-broken boundary is `recordY`, the
first visited block `X` does not match it, and the merged-and-persisted
dataset holds the `(X, 9)` pair twice: the dedup policy does not ensure
the uniqueness invariant. -/
theorem C2_counterexample :
    (scrape_new_drug_approvals_data fetchXY chatOther 2002 false none none
        (some [recordX, recordY])).csv = [recordX, recordY, recordX]
    ∧ 2 ≤ ((scrape_new_drug_approvals_data fetchXY chatOther 2002 false none none
        (some [recordX, recordY])).csv.countP
          (fun q => decide (q.drug_name = recordX.drug_name
            ∧ q.approval_date = recordX.approval_date))) := by
  decide

/-- Block for drug `G1`, approval date 3. -/
def blockG1 : Block :=
  { anchorText := some "G1", titleText := "G1", titleHtml := "G1", subtitleSibling := none,
    dateLabel := some 3, companyLabel := none, treatmentLabel := none }

/-- A block whose metadata lacks the `"Date of Approval:"` tag. -/
def blockBad : Block := { blockG1 with anchorText := some "Bad", dateLabel := none }

/-- Block for drug `G2`, approval date 5. -/
def blockG2 : Block := { blockG1 with anchorText := some "G2", dateLabel := some 5 }

/-- A one-year archive whose 2002 page holds, in iteration order,
`blockG1`, then the date-less `blockBad`, then `blockG2`. -/
def fetchBadPage : Nat → Fetched :=
  fun y => if y = 2002 then ⟨200, some [blockG2, blockBad, blockG1]⟩ else ⟨200, some []⟩

/-- C3 (amended): a record block whose metadata lacks the
`"Date of Approval:"` label does not produce a recoverable extraction
failure: the missing `'Date of Approval'` column makes the DataFrame
conversion raise an uncaught `KeyError` that aborts the whole run.
Sibling blocks visited before the faulty one are already persisted (the
CSV is appended per record); the faulty block and every sibling after it
are not processed. -/
theorem C3_missing_date_aborts (fetch : Nat → Fetched) (chat : Chat)
    (P L1 L2 : List Block) (bad : Block)
    (hpage : (fetch 2002).mediaList = some P)
    (hrev : P.reverse = L1 ++ bad :: L2)
    (hgood : ∀ b ∈ L1, b.dateLabel.isSome)
    (hbad : bad.dateLabel = none) :
    (scrape_new_drug_approvals_data fetch chat 2002 false none none none).csv
      = L1.map (recOf chat)
    ∧ (scrape_new_drug_approvals_data fetch chat 2002 false none none none).error?
      = some (.keyError (blockDrugName bad)) := by
  have hyears : yearsDesc 2002 2002 = [2002] := rfl
  rw [scrape_csv_none_file, hyears]
  simp only [procYears, hpage, Option.isSome_none, Bool.false_eq_true, if_false]
  rw [hrev, procBlocksAux_keyError L1 bad L2 _ hgood
    (fun b _ => stopMatch_none_drug none b) hbad]
  simp [procYears]

/-- C3 witness: the abort theorem applied to the concrete page of
`fetchBadPage`. -/
theorem C3_witness :
    (fetchBadPage 2002).mediaList = some [blockG2, blockBad, blockG1]
    ∧ ([blockG2, blockBad, blockG1] : List Block).reverse = [blockG1] ++ blockBad :: [blockG2]
    ∧ ((scrape_new_drug_approvals_data fetchBadPage chatOther 2002 false none none none).csv
        = [blockG1].map (recOf chatOther)
      ∧ (scrape_new_drug_approvals_data fetchBadPage chatOther 2002
          false none none none).error? = some (.keyError (blockDrugName blockBad))) :=
  ⟨rfl, by decide,
    C3_missing_date_aborts fetchBadPage chatOther [blockG2, blockBad, blockG1]
      [blockG1] [blockG2] blockBad rfl (by decide) (by decide) rfl⟩

/-- C3 counterexample: on the page of `fetchBadPage` the date-less block
is not merely dropped — the run aborts with a `KeyError`, and the
sibling `blockG2` that follows it in iteration order is never processed
or persisted, contradicting the claim that every other block in the page
is still processed. -/
theorem C3_counterexample :
    (scrape_new_drug_approvals_data fetchBadPage chatOther 2002 false none none none).csv
      = [recOf chatOther blockG1]
    ∧ (scrape_new_drug_approvals_data fetchBadPage chatOther 2002
        false none none none).error? = some (.keyError "Bad")
    ∧ recOf chatOther blockG2
      ∉ (scrape_new_drug_approvals_data fetchBadPage chatOther 2002
          false none none none).csv := by
  decide

/-- C4 (amended): for every title markup string whose HTML-unescaped
form decomposes around a balanced parenthetical group (one level of
nesting allowed) whose opening parenthesis is the first of the string
and whose trailing remainder holds no newline,
`extract_generic_and_admin` returns the group's inner text,
whitespace-trimmed (`none` when trimmed empty), as the generic name; the
administration route is the trailing remainder, whitespace-trimmed and
with inline markup tags stripped — but additionally normalised by
`clean_mode_administration` (trailing ` - formerly ...` clause and
leading `for ` dropped, trimmed), which the claim as stated omits (see
the counterexample). -/
theorem C4_extract_single_group (t : String) (pre inner post : List Char)
    (hdec : unescapeList t.toList = pre ++ '(' :: (inner ++ ')' :: post))
    (hpre : ∀ c ∈ pre, c ≠ '(')
    (hinner : ItemsOK inner)
    (hpost : '\n' ∉ post) :
    extract_generic_and_admin t =
      ((if pyStripList inner = [] then none else some (String.mk (pyStripList inner))),
        some (clean_mode_administration
          (String.mk (pyStripList (stripTags (pyStripList post)))))) := by
  rw [extract_decomp t hdec hpre hinner, afterGroup_no_newline hpost]

/-- C4 witness: the characterisation applied to
`"Alpha (b(g)) for IV use"` (one nested group). -/
theorem C4_witness :
    unescapeList "Alpha (b(g)) for IV use".toList
      = "Alpha ".toList ++ '(' :: ("b(g)".toList ++ ')' :: " for IV use".toList)
    ∧ extract_generic_and_admin "Alpha (b(g)) for IV use"
      = (some "b(g)", some "IV use") := by
  refine ⟨by decide, ?_⟩
  rw [C4_extract_single_group "Alpha (b(g)) for IV use" "Alpha ".toList
    "b(g)".toList " for IV use".toList (by decide) (by decide)
    (@ItemsOK.chr 'b' ['(', 'g', ')'] (by decide) (by decide)
      (@ItemsOK.grp ['g'] [] (by decide) ItemsOK.nil))
    (by decide)]
  decide

/-- C4 counterexample: on `"<h3>Alpha (beta) for Oral Use</h3>"` the
trailing remainder with tags stripped is `"for Oral Use"`, but the
returned administration route is `"Oral Use"`: the function also applies
`clean_mode_administration`, so the claim as stated (route equals the
tag-stripped remainder) is false. -/
theorem C4_counterexample :
    extract_generic_and_admin "<h3>Alpha (beta) for Oral Use</h3>"
      = (some "beta", some "Oral Use")
    ∧ pyStripList (stripTags (pyStripList " for Oral Use</h3>".toList))
      = "for Oral Use".toList
    ∧ (some "Oral Use" : Option String) ≠ some "for Oral Use" := by
  decide

/-- C5: on inputs whose unescaped form decomposes around a balanced
parenthetical group opening at the first `(` of the string, the
extracted generic name is `none` exactly when the group's content is
empty after whitespace-trimming (in particular for the empty group
`()`); and when the unescaped input holds no `(` at all — no group —
the generic name is likewise `none`. -/
theorem C5_generic_none_iff :
    (∀ (t : String) (pre inner post : List Char),
      unescapeList t.toList = pre ++ '(' :: (inner ++ ')' :: post) →
      (∀ c ∈ pre, c ≠ '(') → ItemsOK inner →
      ((extract_generic_and_admin t).1 = none ↔ pyStripList inner = []))
    ∧ (∀ t : String, '(' ∉ unescapeList t.toList →
        (extract_generic_and_admin t).1 = none) := by
  constructor
  · intro t pre inner post hdec hpre hinner
    rw [extract_decomp t hdec hpre hinner]
    by_cases h : pyStripList inner = [] <;> simp [h]
  · intro t h
    unfold extract_generic_and_admin
    dsimp only
    rw [searchParen_none (fun c hc hceq => h (hceq ▸ hc))]

/-- C5 witness: the iff applied to the empty group of `"Alpha () x"`. -/
theorem C5_witness :
    unescapeList "Alpha () x".toList
      = "Alpha ".toList ++ '(' :: (([] : List Char) ++ ')' :: " x".toList)
    ∧ ((extract_generic_and_admin "Alpha () x").1 = none
      ↔ pyStripList ([] : List Char) = []) :=
  ⟨by decide,
    C5_generic_none_iff.1 "Alpha () x" "Alpha ".toList [] " x".toList
      (by decide) (by decide) ItemsOK.nil⟩

set_option maxRecDepth 4096 in
/-- C6: the company-name canonicalisation on the three specification
examples. -/
theorem C6_clean_company_examples :
    clean_company_name "Pfizer, Inc." = "Pfizer"
    ∧ clean_company_name "Roche / Genentech" = "Roche And Genentech"
    ∧ clean_company_name "GlaxoSmithKline" = "Gsk" := by
  decide

/-- C7: on (single-line) administration-route strings,
`clean_mode_administration` is exactly the composition the claim
states: drop the trailing ` - formerly ...` clause (case-sensitive
match), then drop a leading case-insensitive `for `, then trim; in
particular `clean_mode_administration "for Oral Use - formerly Xyz"`
is `"Oral Use"`. -/
theorem C7_clean_mode_administration_spec :
    (∀ mode : String, '\n' ∉ mode.toList →
      clean_mode_administration mode
        = String.mk (pyStripList (dropLeadingFor (specDropFormerly mode.toList))))
    ∧ clean_mode_administration "for Oral Use - formerly Xyz" = "Oral Use" := by
  constructor
  · intro mode h
    unfold clean_mode_administration
    rw [subFormerly_no_newline h]
  · decide

/-- C7 witness: the pipeline equality applied to
`"for Oral Use - formerly Xyz"`. -/
theorem C7_witness :
    '\n' ∉ "for Oral Use - formerly Xyz".toList
    ∧ clean_mode_administration "for Oral Use - formerly Xyz"
      = String.mk (pyStripList (dropLeadingFor
          (specDropFormerly "for Oral Use - formerly Xyz".toList))) :=
  ⟨by decide, C7_clean_mode_administration_spec.1 _ (by decide)⟩

/-- C8 (amended): the run never consults the HTTP status: two transports
whose bodies parse identically yield identical runs whatever their
status codes, so a failure status is not, by itself, surfaced.  A fetch
failure aborts the run only indirectly, through the `AttributeError`
raised when the fetched body lacks the media-list container; a
failure-status response whose body still parses is processed as data and
the harvest silently continues (see the counterexample). -/
theorem C8_status_ignored :
    (∀ (fetch fetch2 : Nat → Fetched) (chat : Chat) (cur : Nat) (rdf : Bool)
        (mrD : Option Nat) (mrDr : Option String) (file : Option (List Record)),
      (∀ y, (fetch y).mediaList = (fetch2 y).mediaList) →
      scrape_new_drug_approvals_data fetch chat cur rdf mrD mrDr file
        = scrape_new_drug_approvals_data fetch2 chat cur rdf mrD mrDr file)
    ∧ (∀ (fetch : Nat → Fetched) (chat : Chat) (cur : Nat),
      2002 ≤ cur → (fetch cur).mediaList = none →
      (scrape_new_drug_approvals_data fetch chat cur false none none none).error?
        = some (.attributeError cur)) := by
  constructor
  · intro fetch fetch2 chat cur rdf mrD mrDr file h
    unfold scrape_new_drug_approvals_data
    cases rdf with
    | true =>
      simp only [if_pos rfl]
      exact procYears_media_eq h _ _
    | false =>
      simp only [Bool.false_eq_true, if_false]
      cases file with
      | none => exact procYears_media_eq h _ _
      | some D =>
        cases D with
        | nil => rfl
        | cons r rs => exact procYears_media_eq h _ _
  · intro fetch chat cur hcur hnone
    obtain ⟨ys2, hys⟩ := yearsDesc_head hcur
    rw [scrape_csv_none_file, hys]
    simp [procYears, hnone]

/-- Block for drug `Z`, approval date 5. -/
def blockZ : Block :=
  { blockX with
    anchorText := some "Z"
    titleText := "Z"
    titleHtml := "Z"
    dateLabel := some 5 }

/-- A transport whose 2003 fetch reports failure status 500 with a body
that still parses (an empty media list), while 2002 succeeds with one
record. -/
def fetchFail : Nat → Fetched :=
  fun y => if y = 2003 then ⟨500, some []⟩ else ⟨200, some [blockZ]⟩

/-- A transport returning no media-list container at all. -/
def fetchNoDiv : Nat → Fetched := fun _ => ⟨404, none⟩

/-- C8 witness: the amended theorem applied to a transport whose body
lacks the media-list container: the run aborts with `AttributeError`. -/
theorem C8_witness :
    2002 ≤ 2002
    ∧ (fetchNoDiv 2002).mediaList = none
    ∧ (scrape_new_drug_approvals_data fetchNoDiv chatOther 2002
        false none none none).error? = some (.attributeError 2002) :=
  ⟨by decide, rfl, C8_status_ignored.2 fetchNoDiv chatOther 2002 (by decide) rfl⟩

/-- C8 counterexample: year 2003's transport reports failure status 500,
yet the run surfaces no failure at all — it silently continues to year
2002 and persists that year's record, contradicting the claim that a
failure status is fatal and surfaced. -/
theorem C8_counterexample :
    (fetchFail 2003).status = 500
    ∧ (scrape_new_drug_approvals_data fetchFail chatOther 2003
        false none none none).error? = none
    ∧ (scrape_new_drug_approvals_data fetchFail chatOther 2003
        false none none none).csv = [recOf chatOther blockZ] := by
  decide

/-- C9: for every input whose unescaped form contains no parenthetical
group at all (no `(` occurs), `extract_generic_and_admin` returns
`(none, none)`: the administration route is `none` as well, not an
empty string or the raw remainder. -/
theorem C9_no_paren_group (t : String) (h : '(' ∉ unescapeList t.toList) :
    extract_generic_and_admin t = (none, none) := by
  unfold extract_generic_and_admin
  dsimp only
  rw [searchParen_none (fun c hc hceq => h (hceq ▸ hc))]

/-- C9 witness: the theorem applied to `"Alpha oral"`. -/
theorem C9_witness :
    '(' ∉ unescapeList "Alpha oral".toList
    ∧ extract_generic_and_admin "Alpha oral" = (none, none) :=
  ⟨by decide, C9_no_paren_group "Alpha oral" (by decide)⟩

/-- C10: in `return_df` mode the local CSV dataset is neither read nor
written — the file contents and the existence flag pass through the run
unchanged — and the accumulated DataFrame and the error outcome are
independent of the file: the dedup boundary comes only from the
`most_recent_date` / `most_recent_drug` arguments. -/
theorem C10_return_df_frame (fetch : Nat → Fetched) (chat : Chat) (cur : Nat)
    (mrD : Option Nat) (mrDr : Option String) (file : Option (List Record)) :
    (scrape_new_drug_approvals_data fetch chat cur true mrD mrDr file).csv = file.getD []
    ∧ (scrape_new_drug_approvals_data fetch chat cur true mrD mrDr file).fileExists
      = file.isSome
    ∧ (scrape_new_drug_approvals_data fetch chat cur true mrD mrDr file).df
      = (scrape_new_drug_approvals_data fetch chat cur true mrD mrDr none).df
    ∧ (scrape_new_drug_approvals_data fetch chat cur true mrD mrDr file).error?
      = (scrape_new_drug_approvals_data fetch chat cur true mrD mrDr none).error? := by
  have h1 : scrape_new_drug_approvals_data fetch chat cur true mrD mrDr file
      = { scrape_new_drug_approvals_data fetch chat cur true mrD mrDr none with
          csv := file.getD [], fileExists := file.isSome } := by
    have h2 := @procYears_df_phantom fetch chat mrD mrDr (yearsDesc cur 2002)
      { csv := [], df := [], fileExists := false, hasToStop := false, error? := none }
      (file.getD []) file.isSome
    exact h2
  rw [h1]
  exact ⟨rfl, rfl, rfl, rfl⟩
